import Mathlib

/-!
Verification development for the wuki chess rules engine.

The definitions below are a shallow embedding of the Python sources
(`wuki/board.py`, `wuki/piece.py`, `wuki/game.py`): Python sets are
modelled as duplicate-free lists built by insertion (`pyInsertBy`),
the `Square -> Piece` index dict as an association list, exceptions as
`Except Err`, and machine integers as `Int` (Python ints are unbounded).
-/

namespace Wuki

/-- Player color, from `wuki.board.Color`.  The two Python singletons
`White`/`Black` become the two constructors; equality is value equality. -/
inductive Color where
  | White
  | Black
deriving DecidableEq

/-- The `~` operator on colors (`Color.__invert__`). -/
def Color.invert : Color → Color
  | .White => .Black
  | .Black => .White

/-- Forward direction of a color (`Color.direction`): `[+1,-1][color]`. -/
def Color.direction : Color → Int
  | .White => 1
  | .Black => -1

/-- Home rank index of a color (`Color.home_y`): `[0, BOARD_LEN-1][color]`. -/
def Color.homeY : Color → Int
  | .White => 0
  | .Black => 7

/-- Number of squares per board side (`wuki.board.BOARD_LEN`). -/
def BOARD_LEN : Int := 8

/-- A square, from `wuki.board.Square`: a plain coordinate pair.  The Python
constructor performs no bounds check, so coordinates are arbitrary `Int`s. -/
structure Square where
  x : Int
  y : Int
deriving DecidableEq

/-- Offset addition (`Square.__add__` with a 2-tuple). -/
def Square.add (s : Square) (d : Int × Int) : Square :=
  Square.mk (s.x + d.1) (s.y + d.2)

/-- Bounds check (`Square.within_board`). -/
def Square.withinBoard (s : Square) : Bool :=
  decide (0 ≤ s.x) && decide (s.x < BOARD_LEN) && decide (0 ≤ s.y) && decide (s.y < BOARD_LEN)

/-- Insertion respecting an equality test: Python `set.add` keeps the set
unchanged when an equal element is present, otherwise the element joins. -/
def pyInsertBy {α : Type} (eq : α → α → Bool) (l : List α) (a : α) : List α :=
  if l.any (fun b => eq b a) then l else l ++ [a]

/-- Python `set(iterable)`: fold every element through `pyInsertBy`. -/
def pySetBy {α : Type} (eq : α → α → Bool) (l : List α) : List α :=
  l.foldl (pyInsertBy eq) []

/-- Python `set |= other`: insert all elements of the second list. -/
def pyUnionBy {α : Type} (eq : α → α → Bool) (acc l : List α) : List α :=
  l.foldl (pyInsertBy eq) acc

/-- Value equality test on squares (`Square.__eq__`/`__hash__`). -/
def sqEqB (a b : Square) : Bool := decide (a = b)

/-- All squares diagonally connected to `s` within the board, including `s`
itself (`Square.diagonals`): four arithmetic rays clipped by
`within_board` and collected into a set. -/
def Square.diagonals (s : Square) : List Square :=
  let rising := ((List.range 8).map fun i => Square.mk (s.x + Int.ofNat i) (s.y + Int.ofNat i))
    ++ ((List.range 8).map fun i => Square.mk (s.x - Int.ofNat i) (s.y - Int.ofNat i))
  let falling := ((List.range 8).map fun i => Square.mk (s.x + Int.ofNat i) (s.y - Int.ofNat i))
    ++ ((List.range 8).map fun i => Square.mk (s.x - Int.ofNat i) (s.y + Int.ofNat i))
  pySetBy sqEqB ((rising ++ falling).filter Square.withinBoard)

/-- All squares orthogonally connected to `s`, including `s`
(`Square.orthogonals`). -/
def Square.orthogonals (s : Square) : List Square :=
  pySetBy sqEqB (((List.range 8).map fun x => Square.mk (Int.ofNat x) s.y)
    ++ ((List.range 8).map fun y => Square.mk s.x (Int.ofNat y)))

/-- Floor of the square root, by linear search (kernel-reducible). -/
def natSqrtFloor (n : Nat) : Nat :=
  (List.range (n + 1)).foldl (fun acc k => if k * k ≤ n then k else acc) 0

/-- Floor of the Euclidean distance between two squares:
`int(Square.dist(other))` as used by the castling code. -/
def Square.distInt (a b : Square) : Nat :=
  natSqrtFloor ((a.x - b.x).natAbs ^ 2 + (a.y - b.y).natAbs ^ 2)

/-- Line-of-sight predicate (`Square.blocked_by`): does `blocker` block a
move from `mover` to `self`?  Three branches exactly as in the source:
same file (the branch the source labels "horizontals"), same rank, and
the diagonal branch guarded by two `diagonals()` membership tests. -/
def Square.blockedBy (self mover blocker : Square) : Bool :=
  if self.x = mover.x ∧ mover.x = blocker.x ∧
      (mover.y < blocker.y ∧ blocker.y < self.y ∨ mover.y > blocker.y ∧ blocker.y > self.y) then
    true
  else if self.y = mover.y ∧ mover.y = blocker.y ∧
      (mover.x < blocker.x ∧ blocker.x < self.x ∨ mover.x > blocker.x ∧ blocker.x > self.x) then
    true
  else if (self ∈ mover.diagonals ∧ blocker ∈ mover.diagonals) ∧
      ((mover.x < blocker.x ∧ blocker.x < self.x ∧ mover.y < blocker.y ∧ blocker.y < self.y)
        ∨ (mover.x < blocker.x ∧ blocker.x < self.x ∧ mover.y > blocker.y ∧ blocker.y > self.y)
        ∨ (mover.x > blocker.x ∧ blocker.x > self.x ∧ mover.y < blocker.y ∧ blocker.y < self.y)
        ∨ (mover.x > blocker.x ∧ blocker.x > self.x ∧ mover.y > blocker.y ∧ blocker.y > self.y)) then
    true
  else
    false

/-- Decidable equality of `Except` results, so that runs of the embedded
code can be compared by `decide`. -/
instance {ε α : Type} [DecidableEq ε] [DecidableEq α] : DecidableEq (Except ε α) := fun x y =>
  match x, y with
  | Except.ok a, Except.ok b =>
    if h : a = b then Decidable.isTrue (by rw [h])
    else Decidable.isFalse (by intro hc; injection hc; exact h (by assumption))
  | Except.ok _, Except.error _ => Decidable.isFalse (by intro hc; exact Except.noConfusion hc)
  | Except.error _, Except.ok _ => Decidable.isFalse (by intro hc; exact Except.noConfusion hc)
  | Except.error e, Except.error f =>
    if h : e = f then Decidable.isTrue (by rw [h])
    else Decidable.isFalse (by intro hc; injection hc; exact h (by assumption))

/-- Exception kinds raised by the embedded code, from `wuki/exceptions.py`
plus the builtin Python exceptions the sources can raise. -/
inductive Err where
  | IllegalMove
  | MoveParseFail
  | AmbiguousMove
  | WrongPlayer
  | KeyNotFound
  | ValueFail
  | StopIter
  | OtherFail
deriving DecidableEq

/-- Piece kind, from the `AbstractPiece` subclasses in `wuki/piece.py`.
`Pawn` carries its color as in the source. -/
inductive Kind where
  | King
  | Queen
  | Rook
  | Bishop
  | Knight
  | Pawn (color : Color)
deriving DecidableEq

/-- Name-based kind equality (`AbstractPiece.__eq__` compares `.name`):
a white pawn and a black pawn are the same kind. -/
def sameKind : Kind → Kind → Bool
  | .King, .King => true
  | .Queen, .Queen => true
  | .Rook, .Rook => true
  | .Bishop, .Bishop => true
  | .Knight, .Knight => true
  | .Pawn _, .Pawn _ => true
  | _, _ => false

/-- A placed piece, from `wuki.piece.Piece`. -/
structure Piece where
  kind : Kind
  color : Color
  pos : Square
  touched : Bool
deriving DecidableEq

/-- Equality used by Python sets of pieces (`Piece.__eq__`/`__hash__`):
kind name, color and position; the `touched` flag is ignored. -/
def pieceEqB (a b : Piece) : Bool :=
  sameKind a.kind b.kind && decide (a.color = b.color) && decide (a.pos = b.pos)

/-- Piece construction (`Piece.__init__`): fails with `ValueError` when the
position is outside the board. -/
def mkPieceE (k : Kind) (c : Color) (pos : Square) (t : Bool) : Except Err Piece :=
  if pos.withinBoard then Except.ok (Piece.mk k c pos t) else Except.error Err.ValueFail

/-- Dict assignment `index[square] = piece`: replace an existing binding or
append a new one. -/
def ixSet (ix : List (Square × Piece)) (s : Square) (p : Piece) : List (Square × Piece) :=
  if ix.any (fun e => decide (e.1 = s)) then
    ix.map (fun e => if e.1 = s then (s, p) else e)
  else ix ++ [(s, p)]

/-- A board position, from `wuki.board.Board`: the piece set, the
`Square -> Piece` index dict, and the two captured-piece sets keyed by
color. -/
structure Board where
  pieces : List Piece
  index : List (Square × Piece)
  capturedW : List Piece
  capturedB : List Piece
deriving DecidableEq

/-- Board construction (`Board.__init__`): the piece list is turned into a
set, the index dict is built from it, and the captured sets are copied
(`captured=None` yields empty sets). -/
def Board.init (pieces : List Piece) (captured : Option (List Piece × List Piece)) : Board :=
  let ps := pySetBy pieceEqB pieces
  let ix := ps.foldl (fun acc p => ixSet acc p.pos p) []
  match captured with
  | some c => Board.mk ps ix c.1 c.2
  | none => Board.mk ps ix [] []

/-- Index lookup (`Board.__getitem__` without the raising behavior). -/
def Board.lookup (b : Board) (s : Square) : Option Piece :=
  (b.index.find? (fun e => decide (e.1 = s))).map (fun e => e.2)

/-- Occupancy test (`square in board` checks `square in self.index`). -/
def Board.occupied (b : Board) (s : Square) : Bool :=
  (b.lookup s).isSome

/-- Piece filtering (`Board.pieces(kind, color)`): kinds compare by name. -/
def Board.piecesKC (b : Board) (kind : Option Kind) (color : Option Color) : List Piece :=
  b.pieces.filter fun p =>
    (match kind with | some k => sameKind p.kind k | none => true)
    && (match color with | some c => decide (p.color = c) | none => true)

/-- Removal (`Board.remove`): deletes the index binding at the piece's
position and removes the piece from the set; raises `KeyError` when either
is missing. -/
def Board.remove (b : Board) (p : Piece) : Except Err Board :=
  if b.index.any (fun e => decide (e.1 = p.pos)) then
    if b.pieces.any (fun q => pieceEqB q p) then
      Except.ok (Board.mk
        (b.pieces.filter (fun q => !(pieceEqB q p)))
        (b.index.filter (fun e => !(decide (e.1 = p.pos))))
        b.capturedW b.capturedB)
    else Except.error Err.KeyNotFound
  else Except.error Err.KeyNotFound

/-- Capture (`Board.capture`): remove the piece and add it to the captured
set of its color. -/
def Board.capture (b : Board) (p : Piece) : Except Err Board :=
  match b.remove p with
  | Except.error e => Except.error e
  | Except.ok b2 =>
    match p.color with
    | Color.White => Except.ok (Board.mk b2.pieces b2.index (pyInsertBy pieceEqB b2.capturedW p) b2.capturedB)
    | Color.Black => Except.ok (Board.mk b2.pieces b2.index b2.capturedW (pyInsertBy pieceEqB b2.capturedB p))

/-- Insertion (`Board.add`): raises `ValueError` when the target square is
occupied, otherwise adds the piece to the set and the index. -/
def Board.add (b : Board) (p : Piece) : Except Err Board :=
  if b.occupied p.pos then Except.error Err.ValueFail
  else Except.ok (Board.mk (pyInsertBy pieceEqB b.pieces p) (ixSet b.index p.pos p) b.capturedW b.capturedB)

/-- Kind-level movement patterns (`AbstractPiece.legal_moves` of each
subclass).  The board argument is consulted only by the pawn; the last
argument is the pawn's `only_attacked` flag. -/
def Kind.legalMoves : Kind → Square → Board → Bool → List Square
  | .King, pos, _, _ =>
    pySetBy sqEqB (([((1 : Int), (0 : Int)), (-1, 0), (0, 1), (0, -1),
      (1, 1), (-1, 1), (1, -1), (-1, -1)].map (fun d => pos.add d)).filter Square.withinBoard)
  | .Queen, pos, _, _ =>
    (pySetBy sqEqB (pos.diagonals ++ pos.orthogonals)).filter (fun s => !(decide (s = pos)))
  | .Rook, pos, _, _ =>
    pos.orthogonals.filter (fun s => !(decide (s = pos)))
  | .Bishop, pos, _, _ =>
    pos.diagonals.filter (fun s => !(decide (s = pos)))
  | .Knight, pos, _, _ =>
    let verticals := [pos.add (-2, 0), pos.add (2, 0)]
    let horizontals := [pos.add (0, -2), pos.add (0, 2)]
    let moves := (verticals.map (fun q => [q.add (0, -1), q.add (0, 1)])).flatten
      ++ (horizontals.map (fun q => [q.add (-1, 0), q.add (1, 0)])).flatten
    pySetBy sqEqB (moves.filter Square.withinBoard)
  | .Pawn c, pos, b, onlyAttacked =>
    let captures := [pos.add (-1, c.direction), pos.add (1, c.direction)]
    if onlyAttacked then
      pySetBy sqEqB (captures.filter Square.withinBoard)
    else
      let captures := captures.filter fun sq =>
        match b.lookup sq with
        | some q => decide ¬(q.color = c)
        | none => false
      if pos.y = c.invert.homeY then
        []
      else
        let distance : List Int := if pos.y = c.homeY + c.direction then [1, 2] else [1]
        let moves := distance.map (fun d => pos.add (0, c.direction * d))
        pySetBy sqEqB ((moves ++ captures).filter Square.withinBoard)

/-- The parts of `Piece.possible_moves` that do not concern a King: the
own-color filter followed by the Knight / Pawn / sliding-piece blocking
rules.  `Board.attackedMoves` (the `give_check=True` pass) only ever
evaluates this on non-King pieces, which is what breaks the mutual
recursion of the source (its King branch is the one recursive call).
The King case here is never reached; the full King rule lives in
`Piece.possibleMoves`. -/
def Piece.possibleMovesNonKing (p : Piece) (b : Board) : List Square :=
  let mover := p.pos
  let legal := p.kind.legalMoves p.pos b false
  let possible := legal.filter fun s =>
    match b.lookup s with
    | some q => decide ¬(q.color = p.color)
    | none => true
  match p.kind with
  | .Knight => possible
  | .King => []
  | .Pawn _ =>
    let oneStep := p.pos.add (0, 1 * p.color.direction)
    let twoStep := p.pos.add (0, 2 * p.color.direction)
    let possible := if b.occupied oneStep then
        possible.filter (fun s => !(decide (s = oneStep)) && !(decide (s = twoStep)))
      else possible
    if b.occupied twoStep then possible.filter (fun s => !(decide (s = twoStep))) else possible
  | _ =>
    let blockers := legal.filter (fun s => b.occupied s)
    blockers.foldl (fun acc blk => acc.filter (fun s => !(Square.blockedBy s mover blk))) possible

/-- Equality on `(Piece, Square)` pairs as Python tuples compare. -/
def moveEqB (a c : Piece × Square) : Bool := pieceEqB a.1 c.1 && sqEqB a.2 c.2

/-- One iteration of the `give_check=True` loop of
`Board.possible_moves`: Kings are skipped, pawns contribute their
`only_attacked` squares, every other piece its possible moves. -/
def attackedStep (b : Board) (acc : List (Piece × Square)) (piece : Piece) :
    List (Piece × Square) :=
  match piece.kind with
  | .King => acc
  | .Pawn _ => pyUnionBy moveEqB acc
      ((piece.kind.legalMoves piece.pos b true).map (fun t => (piece, t)))
  | _ => pyUnionBy moveEqB acc
      ((piece.possibleMovesNonKing b).map (fun t => (piece, t)))

/-- The `give_check=True` branch of `Board.possible_moves`: the squares a
player attacks. -/
def Board.attackedMoves (b : Board) (player : Color) : List (Piece × Square) :=
  (b.piecesKC none (some player)).foldl (attackedStep b) []

/-- One iteration of the castling loop in the King branch of
`Piece.possible_moves`, folded over the player's rooks.  `sic` is the
list of squares the opponent attacks. -/
def castleStep (b : Board) (p : Piece) (sic : List Square) (acc : List Square) (rook : Piece) :
    List Square :=
  if ¬ rook.touched ∧ (rook.pos = Square.mk 0 p.color.homeY ∨ rook.pos = Square.mk 7 p.color.homeY) then
    let dir : Int := if rook.pos.x > p.pos.x then 1 else -1
    let blocked := ((List.range (Square.distInt p.pos rook.pos)).drop 1).any
      (fun d => b.occupied (p.pos.add ((d : Int) * dir, 0)))
    let checked := ([0, 1, 2] : List Int).any (fun d => decide (p.pos.add (d * dir, 0) ∈ sic))
    if ¬ blocked = true ∧ ¬ checked = true then
      pyInsertBy sqEqB acc (p.pos.add (2 * dir, 0))
    else acc
  else acc

/-- Occupancy-aware legality of one piece (`Piece.possible_moves`).  For a
King: drop every square the opponent attacks (computed with
`give_check=True`), drop the opponent King's raw adjacency, then try
castling with each untouched rook on the home rank. -/
def Piece.possibleMoves (p : Piece) (b : Board) : List Square :=
  match p.kind with
  | .King =>
    let legal := p.kind.legalMoves p.pos b false
    let possible := legal.filter fun s =>
      match b.lookup s with
      | some q => decide ¬(q.color = p.color)
      | none => true
    let sic : List Square := (b.attackedMoves p.color.invert).map (fun m => m.2)
    let possible := possible.filter (fun s => !(decide (s ∈ sic)))
    let possible :=
      match (b.piecesKC (some Kind.King) (some p.color.invert)).head? with
      | some ok => possible.filter (fun s => !(decide (s ∈ ok.kind.legalMoves ok.pos b false)))
      | none => possible
    if ¬ p.touched ∧ p.pos = Square.mk 4 p.color.homeY then
      (b.piecesKC (some Kind.Rook) (some p.color)).foldl (castleStep b p sic) possible
    else possible
  | _ => p.possibleMovesNonKing b

/-- Move a piece to a target square (`Piece.move_to`): when a board is
given the move is first validated against `possible_moves`, failing with
`IllegalMoveError`; the result is a fresh `touched` piece. -/
def Piece.moveTo (p : Piece) (target : Square) (mb : Option Board) : Except Err Piece :=
  match mb with
  | some bd =>
    if target ∈ p.possibleMoves bd then mkPieceE p.kind p.color target true
    else Except.error Err.IllegalMove
  | none => mkPieceE p.kind p.color target true

/-- Apply a move (`Board.make_move`): copy the position, capture an
opposing occupant of the target (an own-color occupant is an
`IllegalMoveError`), relocate the rook when the move is a two-file King
hop, then remove the mover and re-add it at the target after the
`move_to` legality check against the original board. -/
def Board.makeMove (b : Board) (piece : Piece) (target : Square) : Except Err Board :=
  let nb := Board.init b.pieces (some (b.capturedW, b.capturedB))
  let step1 : Except Err Board :=
    match nb.lookup target with
    | some q =>
      if q.color = piece.color then Except.error Err.IllegalMove else nb.capture q
    | none => Except.ok nb
  match step1 with
  | Except.error e => Except.error e
  | Except.ok nb1 =>
    let step2 : Except Err Board :=
      if sameKind piece.kind Kind.King ∧ (piece.pos.x - target.x).natAbs = 2 then
        let rookSq := if piece.pos.x < target.x then Square.mk 7 target.y else Square.mk 0 target.y
        let rookTarget := if piece.pos.x < target.x then Square.mk 5 target.y else Square.mk 3 target.y
        match nb1.lookup rookSq with
        | none => Except.error Err.KeyNotFound
        | some rook =>
          match nb1.remove rook with
          | Except.error e => Except.error e
          | Except.ok nb2 =>
            match Piece.moveTo rook rookTarget none with
            | Except.error e => Except.error e
            | Except.ok rook2 => nb2.add rook2
      else Except.ok nb1
    match step2 with
    | Except.error e => Except.error e
    | Except.ok nb3 =>
      match nb3.remove piece with
      | Except.error e => Except.error e
      | Except.ok nb4 =>
        match piece.moveTo target (some b) with
        | Except.error e => Except.error e
        | Except.ok piece2 => nb4.add piece2

/-- The `give_check=False` branch of `Board.possible_moves`: the naive
union of every piece's possible moves, then every move whose application
leaves the mover's own King in check is discarded.  The inner
`is_check` raises `StopIteration` when the player has no King, which the
source does not catch. -/
def Board.possibleMovesF (b : Board) (player : Color) : Except Err (List (Piece × Square)) :=
  let naive := (b.piecesKC none (some player)).foldl (fun acc piece =>
    pyUnionBy moveEqB acc
      ((piece.possibleMoves b).map (fun t => (piece, t)))) []
  naive.filterM fun mv =>
    match b.makeMove mv.1 mv.2 with
    | Except.error e => Except.error e
    | Except.ok nb =>
      match (nb.piecesKC (some Kind.King) (some player)).head? with
      | none => Except.error Err.StopIter
      | some king =>
        Except.ok (!(decide (king.pos ∈ (nb.attackedMoves player.invert).map (fun m => m.2))))

/-- `Board.possible_moves(player, give_check)`, dispatching on the flag. -/
def Board.possibleMoves (b : Board) (player : Color) (giveCheck : Bool) :
    Except Err (List (Piece × Square)) :=
  if giveCheck then Except.ok (b.attackedMoves player) else b.possibleMovesF player

/-- Check detection (`Board.is_check`): the player's King square is among
the opponent's `give_check=True` targets; `StopIteration` when the
player has no King. -/
def Board.isCheck (b : Board) (player : Color) : Except Err Bool :=
  match (b.piecesKC (some Kind.King) (some player)).head? with
  | none => Except.error Err.StopIter
  | some king =>
    Except.ok (decide (king.pos ∈ (b.attackedMoves player.invert).map (fun m => m.2)))

/-- Checkmate (`Board.is_checkmate`): no possible moves and in check; the
`and` of the source short-circuits. -/
def Board.isCheckmate (b : Board) (player : Color) : Except Err Bool :=
  match b.possibleMovesF player with
  | Except.error e => Except.error e
  | Except.ok pm => if pm = [] then b.isCheck player else Except.ok false

/-- Stalemate (`Board.is_stalemate`): no possible moves and not in check. -/
def Board.isStalemate (b : Board) (player : Color) : Except Err Bool :=
  match b.possibleMovesF player with
  | Except.error e => Except.error e
  | Except.ok pm =>
    if pm = [] then
      match b.isCheck player with
      | Except.error e => Except.error e
      | Except.ok c => Except.ok (!c)
    else Except.ok false

/-- The standard initial piece list built by `Game.__init__`: back-rank
pieces then pawns, first for White (ranks 1-2) then Black (ranks 7-8). -/
def initialPieces : List Piece :=
  [Piece.mk Kind.Rook Color.White (Square.mk 0 0) false,
   Piece.mk Kind.Knight Color.White (Square.mk 1 0) false,
   Piece.mk Kind.Bishop Color.White (Square.mk 2 0) false,
   Piece.mk Kind.King Color.White (Square.mk 4 0) false,
   Piece.mk Kind.Queen Color.White (Square.mk 3 0) false,
   Piece.mk Kind.Bishop Color.White (Square.mk 5 0) false,
   Piece.mk Kind.Knight Color.White (Square.mk 6 0) false,
   Piece.mk Kind.Rook Color.White (Square.mk 7 0) false]
  ++ ((List.range 8).map fun col => Piece.mk (Kind.Pawn Color.White) Color.White (Square.mk (col : Int) 1) false)
  ++ [Piece.mk Kind.Rook Color.Black (Square.mk 0 7) false,
   Piece.mk Kind.Knight Color.Black (Square.mk 1 7) false,
   Piece.mk Kind.Bishop Color.Black (Square.mk 2 7) false,
   Piece.mk Kind.King Color.Black (Square.mk 4 7) false,
   Piece.mk Kind.Queen Color.Black (Square.mk 3 7) false,
   Piece.mk Kind.Bishop Color.Black (Square.mk 5 7) false,
   Piece.mk Kind.Knight Color.Black (Square.mk 6 7) false,
   Piece.mk Kind.Rook Color.Black (Square.mk 7 7) false]
  ++ ((List.range 8).map fun col => Piece.mk (Kind.Pawn Color.Black) Color.Black (Square.mk (col : Int) 6) false)

/-- The standard initial position, `Game.__init__`'s `boards[0]`. -/
def initialBoard : Board := Board.init initialPieces none

/-- Game state, from `wuki.game.Game`: the board history, the move list
and the player to move. -/
structure Game where
  boards : List Board
  moves : List (Piece × Square)
  currentPlayer : Color
deriving DecidableEq

/-- Python `del lst[-n:]`: for `n = 0` the slice `lst[-0:]` is the whole
list, so everything is deleted; for `n ≥ 1` the last `min(n, len)`
elements go. -/
def pyDelTail {α : Type} (l : List α) (n : Nat) : List α :=
  if n = 0 then [] else l.take (l.length - n)

/-- Undo (`Game.undo`): guarded by `len(boards) > n and len(moves) > n-1`
over Python ints, then the tails of both lists are deleted and the
player flips when `n` is odd. -/
def Game.undo (g : Game) (n : Nat) : Game :=
  if (g.boards.length : Int) > (n : Int) ∧ (g.moves.length : Int) > (n : Int) - 1 then
    Game.mk (pyDelTail g.boards n) (pyDelTail g.moves n)
      (if n % 2 = 0 then g.currentPlayer else g.currentPlayer.invert)
  else g

/-- The pre-resolved-piece path of `Game.make_move`: reject a piece of the
wrong color, apply the move to the last board, append board and move,
flip the player. -/
def Game.makeMoveG (g : Game) (piece : Piece) (target : Square) : Except Err Game :=
  if ¬ piece.color = g.currentPlayer then Except.error Err.WrongPlayer
  else
    match g.boards.getLast? with
    | none => Except.error Err.OtherFail
    | some b =>
      match b.makeMove piece target with
      | Except.error e => Except.error e
      | Except.ok nb =>
        Except.ok (Game.mk (g.boards ++ [nb]) (g.moves ++ [(piece, target)]) g.currentPlayer.invert)

/-- Character class `[a-h]` of the move grammar. -/
def fileCharP (c : Char) : Bool := decide ('a' ≤ c) && decide (c ≤ 'h')

/-- Character class `[1-8]` of the move grammar. -/
def rankCharP (c : Char) : Bool := decide ('1' ≤ c) && decide ('8' ≥ c)

/-- The piece-letter character class of `Game.parse_move`.  The source
interpolates the Python *set* `{'R','N','B','K','Q','P'}` into the regex
with an f-string, so the class also contains the brace, quote, comma and
space characters of the set's repr. -/
def pieceClassChars : List Char :=
  [Char.ofNat 123, Char.ofNat 125, Char.ofNat 39, ',', ' ', 'R', 'N', 'B', 'K', 'Q', 'P']

/-- Membership in the piece-letter class. -/
def pieceClassP (c : Char) : Bool := pieceClassChars.contains c

/-- The named groups of the move regex. -/
structure MoveGroups where
  sourceFile : Option Char
  sourceRank : Option Char
  pieceLetter : Option Char
  targetFile : Char
  targetRank : Char
deriving DecidableEq

/-- One optional single-character group: the greedy alternative (consume
a matching character) is tried before the empty one, as Python's
backtracking regex engine does. -/
def tryOpt (p : Char → Bool) (cs : List Char) : List (Option Char × List Char) :=
  match cs with
  | [] => [(none, [])]
  | c :: rest => if p c then [(some c, rest), (none, cs)] else [(none, cs)]

/-- `re.match` of the move regex
`[a-h]?[1-8]?[class]?[a-h][1-8]` against a prefix of the input:
backtracking over the three optional groups in the engine's order. -/
def matchMove (cs : List Char) : Option MoveGroups :=
  (tryOpt fileCharP cs).findSome? fun sf =>
    (tryOpt rankCharP sf.2).findSome? fun sr =>
      (tryOpt pieceClassP sr.2).findSome? fun pl =>
        match pl.2 with
        | tf :: tr :: _ =>
          if fileCharP tf && rankCharP tr then some (MoveGroups.mk sf.1 sr.1 pl.1 tf tr)
          else none
        | _ => none

/-- Substring test `"0-" in move`. -/
def hasCastleMark : List Char → Bool
  | [] => false
  | c :: rest => (decide (c = '0') && decide (rest.head? = some '-')) || hasCastleMark rest

/-- `piece_by_letter`: the letter-to-kind dictionary built from
`all_pieces` ('P' is the white pawn instance, 'p' the black one). -/
def kindOfLetter (c : Char) : Option Kind :=
  if c = 'K' then some Kind.King
  else if c = 'Q' then some Kind.Queen
  else if c = 'R' then some Kind.Rook
  else if c = 'B' then some Kind.Bishop
  else if c = 'N' then some Kind.Knight
  else if c = 'P' then some (Kind.Pawn Color.White)
  else if c = 'p' then some (Kind.Pawn Color.Black)
  else none

/-- Uppercased letter of a placed piece (`Piece.letter.upper()`). -/
def letterUpper (p : Piece) : Char :=
  match p.kind with
  | Kind.King => 'K'
  | Kind.Queen => 'Q'
  | Kind.Rook => 'R'
  | Kind.Bishop => 'B'
  | Kind.Knight => 'N'
  | Kind.Pawn _ => 'P'

/-- File letter of a square (`Square.file`), defined for on-board pieces. -/
def fileCharOf (s : Square) : Char := Char.ofNat (97 + s.x.toNat)

/-- Square from a (file, rank) character pair, as `Square('d', 5)`:
`x = "abcdefgh".index(file)`, `y = rank - 1`. -/
def squareOfChars (f r : Char) : Square :=
  Square.mk ((f.toNat : Int) - 97) ((r.toNat : Int) - 49)

/-- Candidate filtering of `Game.parse_move` when the source square is
not fully given: the player's pieces of the requested kind, narrowed by
reachability of the target and by the partial file/rank hints. -/
def parseCandidates (b : Board) (player : Color) (k : Kind) (target : Square)
    (sf sr : Option Char) : List Piece :=
  let ps := b.piecesKC (some k) (some player)
  let ps := ps.filter (fun p => decide (target ∈ p.possibleMoves b))
  let ps := match sf with
    | some f => ps.filter (fun p => decide (fileCharOf p.pos = f))
    | none => ps
  match sr with
  | some r => ps.filter (fun p => decide (p.pos.y + 1 = (r.toNat : Int) - 48))
  | none => ps

/-- Notation parsing (`Game.parse_move`) against an explicit player and
board (the source defaults them to the current player and last board).
Castling tokens are handled first; then the regex groups drive either
direct square lookup or candidate inference, followed by the
letter and color validations. -/
def parseMove (move : List Char) (player : Color) (b : Board) : Except Err (Piece × Square) :=
  if hasCastleMark move then
    match b.lookup (Square.mk 4 player.homeY) with
    | none => Except.error Err.KeyNotFound
    | some king =>
      let targetO : Option Square :=
        if move = ['0', '-', '0'] then some (Square.mk 6 player.homeY)
        else if move = ['0', '-', '0', '-', '0'] then some (Square.mk 2 player.homeY)
        else none
      match targetO with
      | none => Except.error Err.OtherFail
      | some target =>
        if target ∈ king.possibleMoves b then Except.ok (king, target)
        else Except.error Err.MoveParseFail
  else
    match matchMove move with
    | none => Except.error Err.MoveParseFail
    | some g =>
      let pieceId : Char :=
        match g.pieceLetter with
        | some c => c
        | none => if player = Color.White then 'P' else 'p'
      let target := squareOfChars g.targetFile g.targetRank
      let afterResolve : Except Err Piece :=
        match g.sourceFile, g.sourceRank with
        | some f, some r =>
          match b.lookup (squareOfChars f r) with
          | none => Except.error Err.KeyNotFound
          | some p => Except.ok p
        | _, _ =>
          match kindOfLetter pieceId with
          | none => Except.error Err.KeyNotFound
          | some k =>
            match parseCandidates b player k target g.sourceFile g.sourceRank with
            | [p] => Except.ok p
            | _ => Except.error Err.AmbiguousMove
      match afterResolve with
      | Except.error e => Except.error e
      | Except.ok p =>
        if ¬ pieceId.toUpper = letterUpper p then Except.error Err.MoveParseFail
        else if ¬ player = p.color then Except.error Err.MoveParseFail
        else Except.ok (p, target)

/-- `Game.parse_move` with its defaults: current player and last board. -/
def Game.parseMoveG (g : Game) (move : List Char) : Except Err (Piece × Square) :=
  match g.boards.getLast? with
  | none => Except.error Err.OtherFail
  | some b => parseMove move g.currentPlayer b

/-!
Store-level model of `Board.make_move`, used for the immutability claim.
Python's `Board.__init__` copies the incoming containers
(`set(pieces)`, `captured[White].copy()`, ...), and the mutating
primitives `add`/`remove`/`capture` update the containers of the board
they are called on in place.  To make "the receiver is unchanged" a real
statement, the four containers of a board live in a heap of cells and a
board holds four references; `makeMoveH` renders the body of
`make_move` against that heap.
-/

/-- A heap cell: either a piece set or the index dict. -/
inductive Cell where
  | pset (l : List Piece)
  | imap (l : List (Square × Piece))
deriving DecidableEq

/-- The heap of container cells, addressed by allocation order. -/
structure Heap where
  cells : List Cell
deriving DecidableEq

/-- Read a cell (out-of-range reads yield an empty piece set; the runs we
reason about never perform them). -/
def Heap.read (h : Heap) (r : Nat) : Cell := h.cells.getD r (Cell.pset [])

/-- Contents of a piece-set cell. -/
def Heap.getPs (h : Heap) (r : Nat) : List Piece :=
  match h.read r with
  | Cell.pset l => l
  | Cell.imap _ => []

/-- Contents of an index cell. -/
def Heap.getIx (h : Heap) (r : Nat) : List (Square × Piece) :=
  match h.read r with
  | Cell.pset _ => []
  | Cell.imap l => l

/-- Overwrite a cell in place. -/
def Heap.write (h : Heap) (r : Nat) (c : Cell) : Heap := Heap.mk (h.cells.set r c)

/-- Allocate a fresh cell, returning its reference. -/
def Heap.alloc (h : Heap) (c : Cell) : Heap × Nat :=
  (Heap.mk (h.cells ++ [c]), h.cells.length)

/-- A board as the Python object is laid out: references to its piece
set, its index dict and its two captured sets. -/
structure BoardRef where
  piecesRef : Nat
  indexRef : Nat
  capWRef : Nat
  capBRef : Nat
deriving DecidableEq

/-- The pure `Board` value a reference denotes in a heap. -/
def BoardRef.view (br : BoardRef) (h : Heap) : Board :=
  Board.mk (h.getPs br.piecesRef) (h.getIx br.indexRef) (h.getPs br.capWRef) (h.getPs br.capBRef)

/-- `Board.__init__` on the heap: build the piece set and index from the
given contents and allocate four fresh cells (the constructor copies
every container it receives). -/
def initH (h : Heap) (piecesIn : List Piece) (captured : Option (List Piece × List Piece)) :
    Heap × BoardRef :=
  let ps := pySetBy pieceEqB piecesIn
  let ix := ps.foldl (fun acc p => ixSet acc p.pos p) []
  let c := match captured with
    | some c => c
    | none => ([], [])
  let a1 := h.alloc (Cell.pset ps)
  let a2 := a1.1.alloc (Cell.imap ix)
  let a3 := a2.1.alloc (Cell.pset c.1)
  let a4 := a3.1.alloc (Cell.pset c.2)
  (a4.1, BoardRef.mk a1.2 a2.2 a3.2 a4.2)

/-- `Board.remove` on the heap: mutates the index cell and the piece-set
cell of the given board. -/
def removeH (h : Heap) (br : BoardRef) (p : Piece) : Except Err Heap :=
  let ix := h.getIx br.indexRef
  if ix.any (fun e => decide (e.1 = p.pos)) then
    let h1 := h.write br.indexRef (Cell.imap (ix.filter (fun e => !(decide (e.1 = p.pos)))))
    let ps := h1.getPs br.piecesRef
    if ps.any (fun q => pieceEqB q p) then
      Except.ok (h1.write br.piecesRef (Cell.pset (ps.filter (fun q => !(pieceEqB q p)))))
    else Except.error Err.KeyNotFound
  else Except.error Err.KeyNotFound

/-- `Board.capture` on the heap: remove, then insert into the captured
cell of the piece's color. -/
def captureH (h : Heap) (br : BoardRef) (p : Piece) : Except Err Heap :=
  match removeH h br p with
  | Except.error e => Except.error e
  | Except.ok h1 =>
    let r := match p.color with
      | Color.White => br.capWRef
      | Color.Black => br.capBRef
    Except.ok (h1.write r (Cell.pset (pyInsertBy pieceEqB (h1.getPs r) p)))

/-- `Board.add` on the heap. -/
def addH (h : Heap) (br : BoardRef) (p : Piece) : Except Err Heap :=
  let ix := h.getIx br.indexRef
  if ix.any (fun e => decide (e.1 = p.pos)) then Except.error Err.ValueFail
  else
    let h1 := h.write br.piecesRef (Cell.pset (pyInsertBy pieceEqB (h.getPs br.piecesRef) p))
    Except.ok (h1.write br.indexRef (Cell.imap (ixSet (h1.getIx br.indexRef) p.pos p)))

/-- `Board.make_move` on the heap: construct the new board from the
receiver's contents, then perform capture, castling-rook relocation,
removal and re-insertion on the new board's cells only; the receiver is
read (for the copy and for the `move_to` legality check) but never
written. -/
def makeMoveH (h : Heap) (self : BoardRef) (piece : Piece) (target : Square) :
    Except Err (Heap × BoardRef) :=
  let st := initH h (h.getPs self.piecesRef) (some (h.getPs self.capWRef, h.getPs self.capBRef))
  let h0 := st.1
  let nb := st.2
  let step1 : Except Err Heap :=
    match (nb.view h0).lookup target with
    | some q =>
      if q.color = piece.color then Except.error Err.IllegalMove else captureH h0 nb q
    | none => Except.ok h0
  match step1 with
  | Except.error e => Except.error e
  | Except.ok h1 =>
    let step2 : Except Err Heap :=
      if sameKind piece.kind Kind.King ∧ (piece.pos.x - target.x).natAbs = 2 then
        let rookSq := if piece.pos.x < target.x then Square.mk 7 target.y else Square.mk 0 target.y
        let rookTarget := if piece.pos.x < target.x then Square.mk 5 target.y else Square.mk 3 target.y
        match (nb.view h1).lookup rookSq with
        | none => Except.error Err.KeyNotFound
        | some rook =>
          match removeH h1 nb rook with
          | Except.error e => Except.error e
          | Except.ok h2 =>
            match Piece.moveTo rook rookTarget none with
            | Except.error e => Except.error e
            | Except.ok rook2 => addH h2 nb rook2
      else Except.ok h1
    match step2 with
    | Except.error e => Except.error e
    | Except.ok h3 =>
      match removeH h3 nb piece with
      | Except.error e => Except.error e
      | Except.ok h4 =>
        match piece.moveTo target (some (self.view h4)) with
        | Except.error e => Except.error e
        | Except.ok piece2 =>
          match addH h4 nb piece2 with
          | Except.error e => Except.error e
          | Except.ok h5 => Except.ok (h5, nb)

/-- Success test on a result of the embedded code. -/
def exceptIsOk {α : Type} (e : Except Err α) : Bool :=
  match e with
  | Except.ok _ => true
  | Except.error _ => false

/-- Extract a successful result, with a fallback for the error case. -/
def exceptGetD {ε α : Type} (e : Except ε α) (d : α) : α :=
  match e with
  | Except.ok a => a
  | Except.error _ => d

/-- Strict betweenness of integers, in either direction. -/
def strictBetween (a b c : Int) : Prop := (a < b ∧ b < c) ∨ (c < b ∧ b < a)

/-- The specification's reading of `blocked_by` (stated from the spec's
words, to be compared with the code's `Square.blockedBy`): `blocker`
lies strictly between `mover` and `self` on a shared rank, on a shared
file, or on a shared diagonal. -/
def blockedBySpec (self mover blocker : Square) : Prop :=
  (mover.y = blocker.y ∧ blocker.y = self.y ∧ strictBetween mover.x blocker.x self.x)
  ∨ (mover.x = blocker.x ∧ blocker.x = self.x ∧ strictBetween mover.y blocker.y self.y)
  ∨ (((blocker.x - mover.x = blocker.y - mover.y ∧ self.x - mover.x = self.y - mover.y)
      ∨ (blocker.x - mover.x = -(blocker.y - mover.y) ∧ self.x - mover.x = -(self.y - mover.y)))
     ∧ strictBetween mover.x blocker.x self.x)

/-- Well-formedness of a board: no two pieces share a position, the index
keys are unique, every binding maps a square to the piece sitting on it,
and pieces and index entries are in one-to-one correspondence. -/
def Board.wf (b : Board) : Prop :=
  b.pieces.Pairwise (fun p q => p.pos ≠ q.pos)
  ∧ b.index.Pairwise (fun e f => e.1 ≠ f.1)
  ∧ (∀ e ∈ b.index, e.2.pos = e.1)
  ∧ (∀ p ∈ b.pieces, (p.pos, p) ∈ b.index)
  ∧ (∀ e ∈ b.index, e.2 ∈ b.pieces)

instance (b : Board) : Decidable b.wf := by
  unfold Board.wf
  infer_instance

/-- The checkmate fixture of the spec: White King a1, Black Queens on
a8, h8 and h1. -/
def mateBoard : Board := Board.init
  [Piece.mk Kind.King Color.White (Square.mk 0 0) false,
   Piece.mk Kind.Queen Color.Black (Square.mk 0 7) false,
   Piece.mk Kind.Queen Color.Black (Square.mk 7 7) false,
   Piece.mk Kind.Queen Color.Black (Square.mk 7 0) false] none

/-- A pin fixture: White King e1, White Rook e2, Black Rook e8.  Moving
the white Rook off the e-file exposes the white King. -/
def pinBoard : Board := Board.init
  [Piece.mk Kind.King Color.White (Square.mk 4 0) false,
   Piece.mk Kind.Rook Color.White (Square.mk 4 1) false,
   Piece.mk Kind.Rook Color.Black (Square.mk 4 7) false] none

/-- The pinned white Rook of `pinBoard`. -/
def pinRook : Piece := Piece.mk Kind.Rook Color.White (Square.mk 4 1) false

/-- The board after the self-check-exposing Rook move e2-a2 on `pinBoard`. -/
def pinAfter : Board := exceptGetD (pinBoard.makeMove pinRook (Square.mk 0 1)) pinBoard

/-- A fixture for the King-into-attack case: White King e1, Black Rook
e4; every square of the e-file above the King is under attack. -/
def checkBoard : Board := Board.init
  [Piece.mk Kind.King Color.White (Square.mk 4 0) false,
   Piece.mk Kind.Rook Color.Black (Square.mk 4 3) false] none

/-- The white King of `checkBoard`. -/
def checkKing : Piece := Piece.mk Kind.King Color.White (Square.mk 4 0) false

/-- A bare-kings fixture: White King e1, Black King e8. -/
def twoKingsBoard : Board := Board.init
  [Piece.mk Kind.King Color.White (Square.mk 4 0) false,
   Piece.mk Kind.King Color.Black (Square.mk 4 7) false] none

/-- A small fixture for the board-invariant and immutability claims:
a white Rook on a1 and a black Knight on b8. -/
def sampleRook : Piece := Piece.mk Kind.Rook Color.White (Square.mk 0 0) false

/-- Piece list of the small fixture. -/
def samplePieces : List Piece :=
  [sampleRook, Piece.mk Kind.Knight Color.Black (Square.mk 1 7) false]

/-- The small fixture as a pure board. -/
def sampleBoard : Board := Board.init samplePieces none

/-- The small fixture after the Rook move a1-a5. -/
def sampleAfter : Board := exceptGetD (sampleBoard.makeMove sampleRook (Square.mk 0 4)) sampleBoard

/-- The small fixture allocated on an empty heap. -/
def sampleAllocSt : Heap × BoardRef := initH (Heap.mk []) samplePieces none

/-- Heap holding the small fixture. -/
def sampleHeap : Heap := sampleAllocSt.1

/-- Reference to the small fixture's board. -/
def sampleBr : BoardRef := sampleAllocSt.2

/-- The heap run of the Rook move a1-a5 on the small fixture. -/
def sampleRunH : Except Err (Heap × BoardRef) := makeMoveH sampleHeap sampleBr sampleRook (Square.mk 0 4)

/-- Heap after the heap run. -/
def sampleHeap2 : Heap := (exceptGetD sampleRunH (sampleHeap, sampleBr)).1

/-- Board reference returned by the heap run. -/
def sampleBr2 : BoardRef := (exceptGetD sampleRunH (sampleHeap, sampleBr)).2

/-- The board after 1. e4 from the initial position. -/
def boardAfterE4 : Board :=
  exceptGetD (initialBoard.makeMove (Piece.mk (Kind.Pawn Color.White) Color.White (Square.mk 4 1) false) (Square.mk 4 3)) initialBoard

/-- A one-move game: 1. e4 has been played. -/
def sampleGame : Game :=
  Game.mk [initialBoard, boardAfterE4]
    [(Piece.mk (Kind.Pawn Color.White) Color.White (Square.mk 4 1) false, Square.mk 4 3)]
    Color.Black

/-- A freshly constructed game: only the initial board, no moves. -/
def emptyGame : Game := Game.mk [initialBoard] [] Color.White

/-- The move list `Board.possible_moves(White, give_check=False)` yields
on the initial position. -/
def initialPossible : List (Piece × Square) :=
  exceptGetD (initialBoard.possibleMovesF Color.White) []

/-- The white Knight on b1 of the initial position. -/
def knightB1 : Piece := Piece.mk Kind.Knight Color.White (Square.mk 1 0) false

/-- Uppercased letter of a piece kind. -/
def kindLetterUpper : Kind → Char
  | Kind.King => 'K'
  | Kind.Queen => 'Q'
  | Kind.Rook => 'R'
  | Kind.Bishop => 'B'
  | Kind.Knight => 'N'
  | Kind.Pawn _ => 'P'

/-!  Theorems. -/

set_option maxRecDepth 100000

/-- Helper: the `give_check=True` loop body contributes nothing for a
King. -/
theorem attackedStep_king (b : Board) (acc : List (Piece × Square)) (p : Piece)
    (h : p.kind = Kind.King) : attackedStep b acc p = acc := by
  unfold attackedStep
  rw [h]

/-- Helper: folding the `give_check=True` loop over Kings only leaves the
accumulator unchanged. -/
theorem foldl_attackedStep_kings (b : Board) (l : List Piece) :
    ∀ acc : List (Piece × Square), (∀ p ∈ l, p.kind = Kind.King) →
      l.foldl (attackedStep b) acc = acc := by
  induction l with
  | nil => intro acc _; rfl
  | cons p t ih =>
    intro acc h
    simp only [List.foldl_cons]
    rw [attackedStep_king b acc p (h p (by simp))]
    exact ih acc (fun q hq => h q (by simp [hq]))

/-- C1: on the standard initial board, `Board.possible_moves(White)` with
`give_check=False` succeeds and returns exactly 20 moves: 16 pawn moves
and 4 knight moves. -/
theorem initial_position_has_twenty_moves :
    exceptIsOk (initialBoard.possibleMoves Color.White false) = true
    ∧ initialPossible.length = 20
    ∧ (initialPossible.filter (fun m => sameKind m.1.kind (Kind.Pawn Color.White))).length = 16
    ∧ (initialPossible.filter (fun m => sameKind m.1.kind Kind.Knight)).length = 4 := by
  decide

/-- C4: with a White King on a1 and Black Queens on a8, h8 and h1,
`is_checkmate(White)` returns `True`. -/
theorem corner_mate_is_checkmate :
    mateBoard.isCheckmate Color.White = Except.ok true := by
  decide

/-- C5: on a board holding Kings only, `possible_moves(player,
give_check=True)` returns the empty set for either player: the
`give_check` pass skips Kings entirely, so no King move generation is
ever entered. -/
theorem two_kings_give_check_empty (b : Board)
    (h : ∀ p ∈ b.pieces, p.kind = Kind.King) (player : Color) :
    b.possibleMoves player true = Except.ok [] := by
  unfold Board.possibleMoves Board.attackedMoves
  rw [if_pos rfl]
  rw [foldl_attackedStep_kings]
  intro p hp
  have hp' : p ∈ b.pieces := by
    unfold Board.piecesKC at hp
    exact (List.mem_filter.mp hp).1
  exact h p hp'

/-- Witness for C5: the two-Kings fixture satisfies the hypothesis and
White's `give_check=True` move set is empty. -/
theorem two_kings_give_check_empty_witness :
    (∀ p ∈ twoKingsBoard.pieces, p.kind = Kind.King)
    ∧ twoKingsBoard.possibleMoves Color.White true = Except.ok [] :=
  ⟨by decide, two_kings_give_check_empty twoKingsBoard (by decide) Color.White⟩

/-- Counterexample for C2: on `pinBoard` the white Rook e2 is pinned;
moving it to a2 leaves the white King in check on the resulting board,
yet `make_move` succeeds instead of raising `IllegalMoveError`. -/
theorem pinned_rook_move_succeeds :
    pinBoard.makeMove pinRook (Square.mk 0 1) = Except.ok pinAfter
    ∧ pinAfter.isCheck Color.White = Except.ok true := by
  decide

/-- C9: after at least `n ≥ 1` applied moves (history one longer than the
move list), `undo(n)` deletes the last `n` boards and moves, shrinking
both lengths by `n` and flipping `current_player` exactly when `n` is
odd; with fewer than `n` moves it is a no-op. -/
theorem undo_reverts_history (g : Game) (n : Nat) (h1 : 1 ≤ n)
    (h2 : g.boards.length = g.moves.length + 1) :
    (n ≤ g.moves.length →
      (g.undo n).boards = g.boards.take (g.boards.length - n)
      ∧ (g.undo n).moves = g.moves.take (g.moves.length - n)
      ∧ (g.undo n).boards.length = g.boards.length - n
      ∧ (g.undo n).moves.length = g.moves.length - n
      ∧ (g.undo n).currentPlayer
          = (if n % 2 = 1 then g.currentPlayer.invert else g.currentPlayer))
    ∧ (g.moves.length < n → g.undo n = g) := by
  constructor
  · intro hn
    have hg : (g.boards.length : Int) > (n : Int) ∧ (g.moves.length : Int) > (n : Int) - 1 := by
      constructor <;> omega
    unfold Game.undo
    rw [if_pos hg]
    unfold pyDelTail
    have hn0 : ¬ (n = 0) := by omega
    rw [if_neg hn0, if_neg hn0]
    refine ⟨rfl, rfl, ?_, ?_, ?_⟩
    · simp only [List.length_take]
      omega
    · simp only [List.length_take]
      omega
    · by_cases hpar : n % 2 = 0
      · rw [if_pos hpar, if_neg (by omega)]
      · rw [if_neg hpar, if_pos (by omega)]
  · intro hn
    have hg : ¬ ((g.boards.length : Int) > (n : Int) ∧ (g.moves.length : Int) > (n : Int) - 1) := by
      intro hc
      omega
    unfold Game.undo
    rw [if_neg hg]

/-- Witness for C9: undoing the single move of the one-move fixture game
restores both history lengths and the current player. -/
theorem undo_reverts_history_witness :
    (sampleGame.undo 1).boards = sampleGame.boards.take (sampleGame.boards.length - 1)
    ∧ (sampleGame.undo 1).moves = sampleGame.moves.take (sampleGame.moves.length - 1)
    ∧ (sampleGame.undo 1).boards.length = sampleGame.boards.length - 1
    ∧ (sampleGame.undo 1).moves.length = sampleGame.moves.length - 1
    ∧ (sampleGame.undo 1).currentPlayer
        = (if 1 % 2 = 1 then sampleGame.currentPlayer.invert else sampleGame.currentPlayer) :=
  (undo_reverts_history sampleGame 1 (by decide) (by decide)).1 (by decide)

/-- C10: `undo(0)` passes the guard (`len(moves) > -1` always holds and
the history is never empty), and `del boards[-0:]`, `del moves[-0:]`
delete the *entire* history and move list; the player is unchanged. -/
theorem undo_zero_clears_everything (g : Game) (h : g.boards ≠ []) :
    (g.undo 0).boards = [] ∧ (g.undo 0).moves = []
    ∧ (g.undo 0).currentPlayer = g.currentPlayer := by
  have hb : 0 < g.boards.length := List.length_pos.mpr h
  have hg : (g.boards.length : Int) > ((0 : Nat) : Int)
      ∧ (g.moves.length : Int) > ((0 : Nat) : Int) - 1 := by
    constructor <;> omega
  unfold Game.undo
  rw [if_pos hg]
  exact ⟨rfl, rfl, rfl⟩

/-- Witness for C10: a freshly constructed game loses even its initial
board to `undo(0)`. -/
theorem undo_zero_clears_everything_witness :
    (emptyGame.undo 0).boards = [] ∧ (emptyGame.undo 0).moves = []
    ∧ (emptyGame.undo 0).currentPlayer = emptyGame.currentPlayer :=
  undo_zero_clears_everything emptyGame (by decide)

/-- Helper: membership in a kind-and-color piece filter. -/
theorem mem_piecesKC {b : Board} {k : Kind} {c : Color} {p : Piece}
    (h : p ∈ b.piecesKC (some k) (some c)) :
    p ∈ b.pieces ∧ sameKind p.kind k = true ∧ p.color = c := by
  unfold Board.piecesKC at h
  have h' := List.mem_filter.mp h
  have h2 := h'.2
  simp only [Bool.and_eq_true, decide_eq_true_eq] at h2
  exact ⟨h'.1, h2.1, h2.2⟩

/-- Helper: every parse candidate is one of the player's pieces of the
requested kind. -/
theorem mem_parseCandidates {b : Board} {player : Color} {k : Kind} {t : Square}
    {sf sr : Option Char} {p : Piece} (h : p ∈ parseCandidates b player k t sf sr) :
    sameKind p.kind k = true ∧ p.color = player := by
  unfold parseCandidates at h
  have hbase : p ∈ b.piecesKC (some k) (some player) := by
    cases sf <;> cases sr <;>
      simp only [List.mem_filter] at h <;>
      tauto
  exact ⟨(mem_piecesKC hbase).2.1, (mem_piecesKC hbase).2.2⟩

/-- Helper: name-equal kinds carry the same uppercase letter. -/
theorem letterUpper_of_sameKind (kd k : Kind) (col : Color) (pos : Square) (t : Bool)
    (h : sameKind kd k = true) :
    letterUpper (Piece.mk kd col pos t) = kindLetterUpper k := by
  cases kd <;> cases k <;> simp_all [sameKind, letterUpper, kindLetterUpper]

/-- Helper: the letter validation of `parse_move` accepts every candidate
of the kind the letter resolved to. -/
theorem candidate_letter_matches {c : Char} {k : Kind} (hk : kindOfLetter c = some k)
    (p : Piece) (hs : sameKind p.kind k = true) :
    c.toUpper = letterUpper p := by
  have hL : letterUpper p = kindLetterUpper k := by
    have := letterUpper_of_sameKind p.kind k p.color p.pos p.touched hs
    exact this
  rw [hL]
  unfold kindOfLetter at hk
  split_ifs at hk with h1 h2 h3 h4 h5 h6 h7 <;>
    (injection hk with hk2; subst hk2; subst_vars; decide)

/-- Counterexample for C8: a parse that leaves *zero* candidates (a Queen
move no queen can make from the initial position) also raises
`AmbigousMoveError`, so the error is not raised exactly when more than
one candidate remains. -/
theorem parse_zero_candidates_ambiguous :
    parseMove ['Q', 'd', '5'] Color.White initialBoard = Except.error Err.AmbiguousMove
    ∧ (parseCandidates initialBoard Color.White Kind.Queen (squareOfChars 'd' '5')
        none none).length = 0 := by
  decide

/-- C8 (amended): without a full source square, `parse_move` raises
`AmbigousMoveError` exactly when the number of candidates differs from
one (more than one, or zero); with exactly one candidate that piece is
returned with the target square. -/
theorem parse_move_single_candidate (b : Board) (player : Color) (move : List Char)
    (g : MoveGroups) (k : Kind)
    (hm : matchMove move = some g)
    (hc : hasCastleMark move = false)
    (hs : ¬ (g.sourceFile.isSome ∧ g.sourceRank.isSome))
    (hk : kindOfLetter (match g.pieceLetter with
      | some c => c
      | none => if player = Color.White then 'P' else 'p') = some k) :
    (parseMove move player b = Except.error Err.AmbiguousMove
      ↔ ¬ (parseCandidates b player k (squareOfChars g.targetFile g.targetRank)
            g.sourceFile g.sourceRank).length = 1)
    ∧ (∀ p, parseCandidates b player k (squareOfChars g.targetFile g.targetRank)
          g.sourceFile g.sourceRank = [p]
        → parseMove move player b = Except.ok (p, squareOfChars g.targetFile g.targetRank)) := by
  unfold parseMove
  rw [hc, hm]
  simp only [Bool.false_eq_true, if_false]
  cases hsf : g.sourceFile with
  | some f =>
    cases hsr : g.sourceRank with
    | some r => exact absurd ⟨by rw [hsf]; rfl, by rw [hsr]; rfl⟩ hs
    | none =>
      rw [hk]
      cases hcands : parseCandidates b player k (squareOfChars g.targetFile g.targetRank)
          (some f) none with
      | nil =>
        simp only [hcands]
        refine ⟨by simp, ?_⟩
        intro q hq
        exact absurd hq (by simp)
      | cons p tl =>
        cases tl with
        | nil =>
          have hmem : p ∈ parseCandidates b player k (squareOfChars g.targetFile g.targetRank)
              (some f) none := by rw [hcands]; exact List.mem_singleton.mpr rfl
          have hmm := mem_parseCandidates hmem
          have hlet := candidate_letter_matches hk p hmm.1
          simp only [hcands]
          rw [if_neg (not_not_intro hlet), if_neg (not_not_intro hmm.2.symm)]
          refine ⟨by simp, ?_⟩
          intro q hq
          have : p = q := by injection hq
          rw [this]
        | cons q tl2 =>
          simp only [hcands]
          refine ⟨by simp, ?_⟩
          intro r hr
          exact absurd hr (by simp)
  | none =>
    cases hsr : g.sourceRank with
    | some r =>
      rw [hk]
      cases hcands : parseCandidates b player k (squareOfChars g.targetFile g.targetRank)
          none (some r) with
      | nil =>
        simp only [hcands]
        refine ⟨by simp, ?_⟩
        intro q hq
        exact absurd hq (by simp)
      | cons p tl =>
        cases tl with
        | nil =>
          have hmem : p ∈ parseCandidates b player k (squareOfChars g.targetFile g.targetRank)
              none (some r) := by rw [hcands]; exact List.mem_singleton.mpr rfl
          have hmm := mem_parseCandidates hmem
          have hlet := candidate_letter_matches hk p hmm.1
          simp only [hcands]
          rw [if_neg (not_not_intro hlet), if_neg (not_not_intro hmm.2.symm)]
          refine ⟨by simp, ?_⟩
          intro q hq
          have : p = q := by injection hq
          rw [this]
        | cons q tl2 =>
          simp only [hcands]
          refine ⟨by simp, ?_⟩
          intro s hs2
          exact absurd hs2 (by simp)
    | none =>
      rw [hk]
      cases hcands : parseCandidates b player k (squareOfChars g.targetFile g.targetRank)
          none none with
      | nil =>
        simp only [hcands]
        refine ⟨by simp, ?_⟩
        intro q hq
        exact absurd hq (by simp)
      | cons p tl =>
        cases tl with
        | nil =>
          have hmem : p ∈ parseCandidates b player k (squareOfChars g.targetFile g.targetRank)
              none none := by rw [hcands]; exact List.mem_singleton.mpr rfl
          have hmm := mem_parseCandidates hmem
          have hlet := candidate_letter_matches hk p hmm.1
          simp only [hcands]
          rw [if_neg (not_not_intro hlet), if_neg (not_not_intro hmm.2.symm)]
          refine ⟨by simp, ?_⟩
          intro q hq
          have : p = q := by injection hq
          rw [this]
        | cons q tl2 =>
          simp only [hcands]
          refine ⟨by simp, ?_⟩
          intro r hr
          exact absurd hr (by simp)

/-- Witness for C8: parsing `Nc3` from the initial position leaves the
b1 Knight as single candidate, which is returned. -/
theorem parse_move_single_candidate_witness :
    parseMove ['N', 'c', '3'] Color.White initialBoard
      = Except.ok (knightB1, squareOfChars 'c' '3') :=
  (parse_move_single_candidate initialBoard Color.White ['N', 'c', '3']
    (MoveGroups.mk none none (some 'N') 'c' '3') Kind.Knight
    (by decide) (by decide) (by decide) (by decide)).2 knightB1 (by decide)

/-- Helper: extensionality for squares. -/
theorem sq_ext {a b : Square} (hx : a.x = b.x) (hy : a.y = b.y) : a = b := by
  cases a
  cases b
  cases hx
  cases hy
  rfl

/-- Helper: membership after a square-set insertion. -/
theorem mem_pyInsertBy_sq (l : List Square) (a x : Square) :
    x ∈ pyInsertBy sqEqB l a ↔ x ∈ l ∨ x = a := by
  unfold pyInsertBy
  split
  next h =>
    constructor
    · intro hx
      exact Or.inl hx
    · intro hx
      cases hx with
      | inl h' => exact h'
      | inr h' =>
        rw [List.any_eq_true] at h
        obtain ⟨b, hbl, hba⟩ := h
        have hbe : b = a := by
          unfold sqEqB at hba
          exact of_decide_eq_true hba
        rw [h', ← hbe]
        exact hbl
  next h => simp [List.mem_append]

/-- Helper: membership after folding square-set insertions. -/
theorem mem_foldl_pyInsertBy_sq (l : List Square) :
    ∀ (acc : List Square) (x : Square),
      (x ∈ l.foldl (pyInsertBy sqEqB) acc ↔ x ∈ acc ∨ x ∈ l) := by
  induction l with
  | nil =>
    intro acc x
    simp
  | cons a t ih =>
    intro acc x
    simp only [List.foldl_cons]
    rw [ih, mem_pyInsertBy_sq, List.mem_cons]
    tauto

/-- Helper: turning a square list into a Python set keeps its members. -/
theorem mem_pySetBy_sq (l : List Square) (x : Square) :
    x ∈ pySetBy sqEqB l ↔ x ∈ l := by
  unfold pySetBy
  rw [mem_foldl_pyInsertBy_sq]
  simp

/-- Helper: `within_board` as coordinate bounds. -/
theorem withinBoard_iff (s : Square) :
    s.withinBoard = true ↔ 0 ≤ s.x ∧ s.x < 8 ∧ 0 ≤ s.y ∧ s.y < 8 := by
  unfold Square.withinBoard BOARD_LEN
  simp only [Bool.and_eq_true, decide_eq_true_eq]
  tauto

/-- Helper: for on-board squares, membership in `diagonals()` is exactly
the diagonal relation between the coordinates. -/
theorem mem_diagonals_iff (m q : Square) (hm : m.withinBoard = true)
    (hq : q.withinBoard = true) :
    q ∈ m.diagonals ↔ (q.x - m.x = q.y - m.y ∨ q.x - m.x = -(q.y - m.y)) := by
  have hmb := (withinBoard_iff m).mp hm
  have hqb := (withinBoard_iff q).mp hq
  unfold Square.diagonals
  rw [mem_pySetBy_sq, List.mem_filter]
  constructor
  · rintro ⟨hmem, _⟩
    simp only [List.mem_append, List.mem_map, List.mem_range] at hmem
    rcases hmem with ((⟨i, _, hqe⟩ | ⟨i, _, hqe⟩) | (⟨i, _, hqe⟩ | ⟨i, _, hqe⟩))
    · have e1 : m.x + Int.ofNat i = q.x := congrArg Square.x hqe
      have e2 : m.y + Int.ofNat i = q.y := congrArg Square.y hqe
      omega
    · have e1 : m.x - Int.ofNat i = q.x := congrArg Square.x hqe
      have e2 : m.y - Int.ofNat i = q.y := congrArg Square.y hqe
      omega
    · have e1 : m.x + Int.ofNat i = q.x := congrArg Square.x hqe
      have e2 : m.y - Int.ofNat i = q.y := congrArg Square.y hqe
      omega
    · have e1 : m.x - Int.ofNat i = q.x := congrArg Square.x hqe
      have e2 : m.y + Int.ofNat i = q.y := congrArg Square.y hqe
      omega
  · intro hrel
    refine ⟨?_, hq⟩
    simp only [List.mem_append, List.mem_map, List.mem_range]
    rcases hrel with hr | hr
    · by_cases hd : 0 ≤ q.x - m.x
      · refine Or.inl (Or.inl ⟨(q.x - m.x).toNat, by omega, ?_⟩)
        exact sq_ext (by simp; omega) (by simp; omega)
      · refine Or.inl (Or.inr ⟨(m.x - q.x).toNat, by omega, ?_⟩)
        exact sq_ext (by simp; omega) (by simp; omega)
    · by_cases hd : 0 ≤ q.x - m.x
      · refine Or.inr (Or.inl ⟨(q.x - m.x).toNat, by omega, ?_⟩)
        exact sq_ext (by simp; omega) (by simp; omega)
      · refine Or.inr (Or.inr ⟨(m.x - q.x).toNat, by omega, ?_⟩)
        exact sq_ext (by simp; omega) (by simp; omega)

set_option maxHeartbeats 1000000 in
/-- C3: for on-board squares, `blocked_by` returns true exactly when the
blocker lies strictly between mover and target on a shared rank, file or
diagonal, and false in every other configuration. -/
theorem blockedBy_iff_spec (s m bl : Square) (hs : s.withinBoard = true)
    (hm : m.withinBoard = true) (hb : bl.withinBoard = true) :
    (Square.blockedBy s m bl = true ↔ blockedBySpec s m bl) := by
  have hsd := mem_diagonals_iff m s hm hs
  have hbd := mem_diagonals_iff m bl hm hb
  unfold Square.blockedBy
  split_ifs with h1 h2 h3
  · clear hsd hbd
    refine ⟨fun _ => ?_, fun _ => rfl⟩
    unfold blockedBySpec strictBetween
    omega
  · clear hsd hbd
    refine ⟨fun _ => ?_, fun _ => rfl⟩
    unfold blockedBySpec strictBetween
    omega
  · rw [hsd, hbd] at h3
    clear hsd hbd
    refine ⟨fun _ => ?_, fun _ => rfl⟩
    unfold blockedBySpec strictBetween
    omega
  · rw [hsd, hbd] at h3
    clear hsd hbd
    refine ⟨fun hf => absurd hf (by simp), fun hspec => ?_⟩
    exfalso
    revert hspec
    unfold blockedBySpec strictBetween
    omega

/-- Helper: a successful `make_move` implies the target passed the
`move_to` legality check against the moving piece's `possible_moves`. -/
theorem makeMove_ok_mem {b : Board} {p : Piece} {t : Square} {b2 : Board}
    (h : b.makeMove p t = Except.ok b2) : t ∈ p.possibleMoves b := by
  simp only [Board.makeMove] at h
  split at h
  · exact absurd h (by simp)
  · split at h
    · exact absurd h (by simp)
    · split at h
      · exact absurd h (by simp)
      · split at h
        · exact absurd h (by simp)
        · rename_i piece2 hmt
          simp only [Piece.moveTo] at hmt
          split_ifs at hmt with hcond
          exact hcond

/-- Helper: one castling step only adds squares the opponent does not
attack (`checked` covers the two-square landing square). -/
theorem mem_castleStep (b : Board) (p : Piece) (sic : List Square)
    (acc : List Square) (rook : Piece) (t : Square)
    (h : t ∈ castleStep b p sic acc rook) : t ∈ acc ∨ ¬ t ∈ sic := by
  unfold castleStep at h
  by_cases hrk : ¬ rook.touched = true
      ∧ (rook.pos = Square.mk 0 p.color.homeY ∨ rook.pos = Square.mk 7 p.color.homeY)
  · rw [if_pos hrk] at h
    dsimp only at h
    by_cases hcnd : ¬ (((List.range (p.pos.distInt rook.pos)).drop 1).any
          (fun d => b.occupied (p.pos.add ((d : Int) * (if rook.pos.x > p.pos.x then 1 else -1), 0)))) = true
        ∧ ¬ (([0, 1, 2] : List Int).any
          (fun d => decide (p.pos.add (d * (if rook.pos.x > p.pos.x then 1 else -1), 0) ∈ sic))) = true
    · rw [if_pos hcnd, mem_pyInsertBy_sq] at h
      rcases h with h'' | h''
      · exact Or.inl h''
      · right
        rw [h'']
        intro hmem
        apply hcnd.2
        rw [List.any_eq_true]
        exact ⟨2, by simp, decide_eq_true hmem⟩
    · rw [if_neg hcnd] at h
      exact Or.inl h
  · rw [if_neg hrk] at h
    exact Or.inl h

/-- Helper: membership through the castling fold only adds squares the
opponent does not attack. -/
theorem mem_foldl_castleStep (b : Board) (p : Piece) (sic : List Square)
    (rooks : List Piece) :
    ∀ (acc : List Square) (t : Square),
      t ∈ rooks.foldl (castleStep b p sic) acc → t ∈ acc ∨ ¬ t ∈ sic := by
  induction rooks with
  | nil =>
    intro acc t h
    exact Or.inl h
  | cons rook rs ih =>
    intro acc t h
    simp only [List.foldl_cons] at h
    rcases ih (castleStep b p sic acc rook) t h with h' | h'
    · exact mem_castleStep b p sic acc rook t h'
    · exact Or.inr h'

/-- Helper: a King's possible moves never land on a square the opponent
currently attacks (the attacked-square filter and the castling `checked`
test both exclude them). -/
theorem king_moves_not_attacked {b : Board} {p : Piece} {t : Square}
    (hk : p.kind = Kind.King) (hmem : t ∈ p.possibleMoves b) :
    ¬ t ∈ (b.attackedMoves p.color.invert).map (fun m => m.2) := by
  unfold Piece.possibleMoves at hmem
  rw [hk] at hmem
  simp only at hmem
  split at hmem
  · rcases mem_foldl_castleStep b p
        ((b.attackedMoves p.color.invert).map (fun m => m.2)) _ _ t hmem with h' | h'
    · split at h'
      · have h1 := (List.mem_filter.mp h').1
        have h2 := (List.mem_filter.mp h1).2
        simp only [Bool.not_eq_eq_eq_not, Bool.not_true, decide_eq_false_iff_not] at h2
        exact h2
      · have h2 := (List.mem_filter.mp h').2
        simp only [Bool.not_eq_eq_eq_not, Bool.not_true, decide_eq_false_iff_not] at h2
        exact h2
    · exact h'
  · split at hmem
    · have h1 := (List.mem_filter.mp hmem).1
      have h2 := (List.mem_filter.mp h1).2
      simp only [Bool.not_eq_eq_eq_not, Bool.not_true, decide_eq_false_iff_not] at h2
      exact h2
    · have h2 := (List.mem_filter.mp hmem).2
      simp only [Bool.not_eq_eq_eq_not, Bool.not_true, decide_eq_false_iff_not] at h2
      exact h2

/-- C2 (amended): `make_move` succeeds only when the target is in the
moving piece's own `possible_moves` on the current board — for a King
this excludes every square the opponent presently attacks — but it does
not reject a non-King move that leaves the mover's own King in check on
the resulting board; that filtering happens only inside
`Board.possible_moves(give_check=False)`. -/
theorem make_move_piece_level_legality (b : Board) (p : Piece) (t : Square) :
    (¬ t ∈ p.possibleMoves b → exceptIsOk (b.makeMove p t) = false)
    ∧ (p.kind = Kind.King
        → t ∈ (b.attackedMoves p.color.invert).map (fun m => m.2)
        → exceptIsOk (b.makeMove p t) = false) := by
  have part1 : ¬ t ∈ p.possibleMoves b → exceptIsOk (b.makeMove p t) = false := by
    intro hnot
    cases hres : b.makeMove p t with
    | error e => rfl
    | ok b2 => exact absurd (makeMove_ok_mem hres) hnot
  refine ⟨part1, ?_⟩
  intro hk hatt
  apply part1
  intro hmem
  exact absurd hatt (king_moves_not_attacked hk hmem)

/-- Witness for C2 (amended): on `checkBoard` the white King may not step
to the attacked square e2, and `make_move` indeed fails. -/
theorem make_move_piece_level_legality_witness :
    exceptIsOk (checkBoard.makeMove checkKing (Square.mk 4 1)) = false :=
  (make_move_piece_level_legality checkBoard checkKing (Square.mk 4 1)).2
    (by decide) (by decide)

/-- Helper: set-equal pieces sit on the same square. -/
theorem pieceEqB_pos {a c : Piece} (h : pieceEqB a c = true) : a.pos = c.pos := by
  unfold pieceEqB at h
  simp only [Bool.and_eq_true, decide_eq_true_eq] at h
  exact h.2

/-- Helper: inserting a piece whose square no accumulator member occupies
is a plain append. -/
theorem pyInsertBy_piece_of_fresh (acc : List Piece) (a : Piece)
    (h : ∀ y ∈ acc, y.pos ≠ a.pos) :
    pyInsertBy pieceEqB acc a = acc ++ [a] := by
  unfold pyInsertBy
  rw [if_neg]
  intro hc
  rw [List.any_eq_true] at hc
  obtain ⟨y, hy, hya⟩ := hc
  exact h y hy (pieceEqB_pos hya)

/-- Helper: building a Python set from pieces on pairwise distinct
squares keeps the list as it is. -/
theorem foldl_pyInsert_pieces (l : List Piece) :
    ∀ acc : List Piece, (∀ x ∈ l, ∀ y ∈ acc, y.pos ≠ x.pos) →
      l.Pairwise (fun a c => a.pos ≠ c.pos) →
      l.foldl (pyInsertBy pieceEqB) acc = acc ++ l := by
  induction l with
  | nil =>
    intro acc _ _
    simp
  | cons a tl ih =>
    intro acc hacc hpw
    simp only [List.foldl_cons]
    rw [pyInsertBy_piece_of_fresh acc a (fun y hy => hacc a (by simp) y hy)]
    rw [ih (acc ++ [a]) ?_ (List.Pairwise.of_cons hpw)]
    · simp
    · intro x hx y hy
      rcases List.mem_append.mp hy with hy' | hy'
      · exact hacc x (List.mem_cons_of_mem a hx) y hy'
      · have hya : y = a := by simpa using hy'
        rw [hya]
        exact (List.pairwise_cons.mp hpw).1 x hx

/-- Helper: `pySetBy` of pieces on pairwise distinct squares is the
identity. -/
theorem pySetBy_pieces_distinct (l : List Piece)
    (hpw : l.Pairwise (fun a c => a.pos ≠ c.pos)) :
    pySetBy pieceEqB l = l := by
  unfold pySetBy
  rw [foldl_pyInsert_pieces l [] (by intro x _ y hy; cases hy) hpw]
  simp

/-- Helper: assigning a fresh key into an index dict appends. -/
theorem ixSet_of_fresh (ix : List (Square × Piece)) (s : Square) (p : Piece)
    (h : ∀ e ∈ ix, e.1 ≠ s) :
    ixSet ix s p = ix ++ [(s, p)] := by
  unfold ixSet
  rw [if_neg]
  intro hc
  rw [List.any_eq_true] at hc
  obtain ⟨e, he, hes⟩ := hc
  exact h e he (of_decide_eq_true hes)

/-- Helper: building the index of pieces on pairwise distinct squares is
a plain association-list construction. -/
theorem foldl_ixSet_pieces (l : List Piece) :
    ∀ init : List (Square × Piece), (∀ x ∈ l, ∀ e ∈ init, e.1 ≠ x.pos) →
      l.Pairwise (fun a c => a.pos ≠ c.pos) →
      l.foldl (fun acc p => ixSet acc p.pos p) init = init ++ l.map (fun p => (p.pos, p)) := by
  induction l with
  | nil =>
    intro init _ _
    simp
  | cons a tl ih =>
    intro init hinit hpw
    simp only [List.foldl_cons]
    rw [ixSet_of_fresh init a.pos a (fun e he => hinit a (by simp) e he)]
    rw [ih (init ++ [(a.pos, a)]) ?_ (List.Pairwise.of_cons hpw)]
    · simp
    · intro x hx e he
      rcases List.mem_append.mp he with he' | he'
      · exact hinit x (List.mem_cons_of_mem a hx) e he'
      · have hea : e = (a.pos, a) := by simpa using he'
        rw [hea]
        exact (List.pairwise_cons.mp hpw).1 x hx

/-- Helper: for pieces on pairwise distinct squares, the Board
constructor keeps the piece list and builds the evident index. -/
theorem Board_init_fields (l : List Piece) (cap : Option (List Piece × List Piece))
    (hpw : l.Pairwise (fun a c => a.pos ≠ c.pos)) :
    (Board.init l cap).pieces = l
    ∧ (Board.init l cap).index = l.map (fun p => (p.pos, p)) := by
  unfold Board.init
  have hs := pySetBy_pieces_distinct l hpw
  cases cap with
  | some c =>
    constructor
    · exact hs
    · show (pySetBy pieceEqB l).foldl (fun acc p => ixSet acc p.pos p) [] = _
      rw [hs, foldl_ixSet_pieces l [] (by intro x _ e he; cases he) hpw]
      simp
  | none =>
    constructor
    · exact hs
    · show (pySetBy pieceEqB l).foldl (fun acc p => ixSet acc p.pos p) [] = _
      rw [hs, foldl_ixSet_pieces l [] (by intro x _ e he; cases he) hpw]
      simp

/-- Helper: the Board constructor yields a well-formed board from pieces
on pairwise distinct squares. -/
theorem Board_init_wf (l : List Piece) (cap : Option (List Piece × List Piece))
    (hpw : l.Pairwise (fun a c => a.pos ≠ c.pos)) :
    (Board.init l cap).wf := by
  obtain ⟨hp, hi⟩ := Board_init_fields l cap hpw
  unfold Board.wf
  rw [hp, hi]
  refine ⟨hpw, ?_, ?_, ?_, ?_⟩
  · rw [List.pairwise_map]
    exact hpw
  · intro e he
    obtain ⟨p, _, hpe⟩ := List.mem_map.mp he
    rw [← hpe]
  · intro p hp2
    exact List.mem_map.mpr ⟨p, hp2, rfl⟩
  · intro e he
    obtain ⟨p, hp2, hpe⟩ := List.mem_map.mp he
    rw [← hpe]
    exact hp2

/-- Helper: in a list of pieces on pairwise distinct squares, a square
determines its piece. -/
theorem pos_unique {l : List Piece} (hpw : l.Pairwise (fun a c => a.pos ≠ c.pos))
    {a c : Piece} (ha : a ∈ l) (hc : c ∈ l) (he : a.pos = c.pos) : a = c := by
  by_contra hne
  have hsym : Symmetric (fun a c : Piece => a.pos ≠ c.pos) := by
    intro x y hxy hyx
    exact hxy hyx.symm
  exact List.Pairwise.forall hsym hpw ha hc hne he

/-- Helper: removal preserves board well-formedness. -/
theorem remove_wf {b : Board} {p : Piece} {b2 : Board} (hwf : b.wf)
    (h : b.remove p = Except.ok b2) : b2.wf := by
  unfold Board.remove at h
  split_ifs at h with h1 h2
  injection h with hb2
  obtain ⟨hpw, hipw, hkey, hfwd, hbwd⟩ := hwf
  rw [← hb2]
  refine ⟨?_, ?_, ?_, ?_, ?_⟩
  · exact List.Pairwise.sublist (List.filter_sublist _) hpw
  · exact List.Pairwise.sublist (List.filter_sublist _) hipw
  · intro e he
    exact hkey e (List.mem_filter.mp he).1
  · intro q hq
    have hq' := List.mem_filter.mp hq
    have hq2 : pieceEqB q p = false := by
      have := hq'.2
      simpa using this
    have hqp : q.pos ≠ p.pos := by
      intro hqp
      rw [List.any_eq_true] at h2
      obtain ⟨r, hr, hrp⟩ := h2
      have hrq : q = r := pos_unique hpw hq'.1 hr (by rw [hqp, ← pieceEqB_pos hrp])
      rw [hrq, hrp] at hq2
      cases hq2
    refine List.mem_filter.mpr ⟨hfwd q hq'.1, ?_⟩
    simpa using hqp
  · intro e he
    have he' := List.mem_filter.mp he
    have hes : e.1 ≠ p.pos := by
      have := he'.2
      simpa using this
    have hc : pieceEqB e.2 p = false := by
      cases hcE : pieceEqB e.2 p with
      | false => rfl
      | true => exact absurd (by rw [← hkey e he'.1, pieceEqB_pos hcE]) hes
    refine List.mem_filter.mpr ⟨hbwd e he'.1, ?_⟩
    simpa using hc

/-- Helper: capture preserves board well-formedness (it only moves the
removed piece into a captured set). -/
theorem capture_wf {b : Board} {p : Piece} {b2 : Board} (hwf : b.wf)
    (h : b.capture p = Except.ok b2) : b2.wf := by
  unfold Board.capture at h
  split at h
  · exact absurd h (by simp)
  · rename_i b3 hrem
    have h3 := remove_wf hwf hrem
    split at h <;> injection h with hb2 <;> rw [← hb2] <;> exact h3

/-- Helper: an unoccupied square appears in no index binding. -/
theorem occupied_false_keys {b : Board} {s : Square} (h : b.occupied s = false) :
    ∀ e ∈ b.index, e.1 ≠ s := by
  intro e he hes
  unfold Board.occupied Board.lookup at h
  cases hf : b.index.find? (fun e => decide (e.1 = s)) with
  | some e2 =>
    rw [hf] at h
    simp at h
  | none =>
    exact List.find?_eq_none.mp hf e he (decide_eq_true hes)

/-- Helper: insertion on a free square preserves board well-formedness. -/
theorem add_wf {b : Board} {p : Piece} {b2 : Board} (hwf : b.wf)
    (h : b.add p = Except.ok b2) : b2.wf := by
  unfold Board.add at h
  split_ifs at h with hocc
  injection h with hb2
  obtain ⟨hpw, hipw, hkey, hfwd, hbwd⟩ := hwf
  have hocc' : b.occupied p.pos = false := by
    simpa using hocc
  have hkeys := occupied_false_keys hocc'
  have hfresh : ∀ q ∈ b.pieces, q.pos ≠ p.pos := by
    intro q hq
    exact hkeys (q.pos, q) (hfwd q hq)
  have e1 : pyInsertBy pieceEqB b.pieces p = b.pieces ++ [p] :=
    pyInsertBy_piece_of_fresh b.pieces p hfresh
  have e2 : ixSet b.index p.pos p = b.index ++ [(p.pos, p)] :=
    ixSet_of_fresh b.index p.pos p hkeys
  rw [← hb2]
  unfold Board.wf
  dsimp only
  rw [e1, e2]
  refine ⟨?_, ?_, ?_, ?_, ?_⟩
  · rw [List.pairwise_append]
    refine ⟨hpw, by simp, ?_⟩
    intro x hx y hy
    have hya : y = p := by simpa using hy
    rw [hya]
    exact hfresh x hx
  · rw [List.pairwise_append]
    refine ⟨hipw, by simp, ?_⟩
    intro x hx y hy
    have hya : y = (p.pos, p) := by simpa using hy
    rw [hya]
    exact hkeys x hx
  · intro e he
    rcases List.mem_append.mp he with he' | he'
    · exact hkey e he'
    · have : e = (p.pos, p) := by simpa using he'
      rw [this]
  · intro q hq
    rcases List.mem_append.mp hq with hq' | hq'
    · exact List.mem_append.mpr (Or.inl (hfwd q hq'))
    · have : q = p := by simpa using hq'
      rw [this]
      exact List.mem_append.mpr (Or.inr (by simp))
  · intro e he
    rcases List.mem_append.mp he with he' | he'
    · exact List.mem_append.mpr (Or.inl (hbwd e he'))
    · have : e = (p.pos, p) := by simpa using he'
      rw [this]
      exact List.mem_append.mpr (Or.inr (by simp))

/-- Helper: the castling rook relocation (lookup, remove, unchecked
`move_to`, add) preserves well-formedness. -/
theorem castle_branch_wf {nb1 nb3 : Board} {rookSq rookTarget : Square} (hwf1 : nb1.wf)
    (heq : (match nb1.lookup rookSq with
      | none => Except.error Err.KeyNotFound
      | some rook =>
        match nb1.remove rook with
        | Except.error e => Except.error e
        | Except.ok nb2 =>
          match rook.moveTo rookTarget none with
          | Except.error e => Except.error e
          | Except.ok rook2 => nb2.add rook2) = Except.ok nb3) : nb3.wf := by
  split at heq
  · exact absurd heq (by simp)
  · rename_i rook hrook
    split at heq
    · exact absurd heq (by simp)
    · rename_i nb2 hrem
      have hwf2 := remove_wf hwf1 hrem
      split at heq
      · exact absurd heq (by simp)
      · exact add_wf hwf2 heq

/-- Helper: a successful `make_move` yields a well-formed board when the
input board is well-formed: the copy constructor, capture, castling
relocation, removal and re-insertion each preserve the invariant. -/
theorem makeMove_wf {b : Board} {p : Piece} {t : Square} {b2 : Board} (hwf : b.wf)
    (h : b.makeMove p t = Except.ok b2) : b2.wf := by
  have hnb : (Board.init b.pieces (some (b.capturedW, b.capturedB))).wf :=
    Board_init_wf _ _ hwf.1
  simp only [Board.makeMove] at h
  split at h
  · exact absurd h (by simp)
  · rename_i nb1 heq1
    have hwf1 : nb1.wf := by
      split at heq1
      · split_ifs at heq1
        exact capture_wf hnb heq1
      · injection heq1 with h'
        rw [← h']
        exact hnb
    split at h
    · exact absurd h (by simp)
    · rename_i nb3 heq2
      have hwf3 : nb3.wf := by
        split_ifs at heq2 with hcast hdir
        · exact castle_branch_wf hwf1 heq2
        · exact castle_branch_wf hwf1 heq2
        · injection heq2 with h'
          rw [← h']
          exact hwf1
      split at h
      · exact absurd h (by simp)
      · rename_i nb4 hrem4
        have hwf4 := remove_wf hwf3 hrem4
        split at h
        · exact absurd h (by simp)
        · exact add_wf hwf4 h

/-- C7: from a well-formed board (no two pieces on one square, index in
one-to-one correspondence with the piece set), `add` fails on an
occupied square, and each of `add`, `remove`, `capture` and `make_move`
preserves the invariant whenever it succeeds. -/
theorem board_ops_preserve_invariant (b : Board) (hwf : b.wf) :
    (∀ p : Piece, b.occupied p.pos = true → b.add p = Except.error Err.ValueFail)
    ∧ (∀ (p : Piece) (b2 : Board), b.add p = Except.ok b2 → b2.wf)
    ∧ (∀ (p : Piece) (b2 : Board), b.remove p = Except.ok b2 → b2.wf)
    ∧ (∀ (p : Piece) (b2 : Board), b.capture p = Except.ok b2 → b2.wf)
    ∧ (∀ (p : Piece) (t : Square) (b2 : Board), b.makeMove p t = Except.ok b2 → b2.wf) := by
  refine ⟨?_, ?_, ?_, ?_, ?_⟩
  · intro p hocc
    unfold Board.add
    rw [if_pos hocc]
  · intro p b2 h
    exact add_wf hwf h
  · intro p b2 h
    exact remove_wf hwf h
  · intro p b2 h
    exact capture_wf hwf h
  · intro p t b2 h
    exact makeMove_wf hwf h

/-- Witness for C7: the two-piece fixture is well-formed and stays
well-formed after the Rook move a1-a5. -/
theorem board_ops_preserve_invariant_witness :
    sampleBoard.wf ∧ sampleAfter.wf :=
  ⟨by decide,
    (board_ops_preserve_invariant sampleBoard (by decide)).2.2.2.2
      sampleRook (Square.mk 0 4) sampleAfter (by decide)⟩

/-- Helper: writing one heap cell leaves every other cell unchanged. -/
theorem write_frame (h : Heap) (r : Nat) (c : Cell) (r2 : Nat) (hne : r2 ≠ r) :
    (h.write r c).read r2 = h.read r2 := by
  unfold Heap.write Heap.read
  rw [List.getD_eq_getElem?_getD, List.getD_eq_getElem?_getD,
    List.getElem?_set_ne (fun he => hne he.symm)]

/-- Helper: writing keeps the heap size. -/
theorem write_len (h : Heap) (r : Nat) (c : Cell) :
    (h.write r c).cells.length = h.cells.length := by
  unfold Heap.write
  simp

/-- A heap step that mutates only the cells of board `br`. -/
def framePreserves (hA hB : Heap) (br : BoardRef) : Prop :=
  hB.cells.length = hA.cells.length
  ∧ ∀ r : Nat, r ≠ br.piecesRef → r ≠ br.indexRef → r ≠ br.capWRef → r ≠ br.capBRef →
      hB.read r = hA.read r

/-- Helper: `framePreserves` is reflexive. -/
theorem framePreserves_refl (h : Heap) (br : BoardRef) : framePreserves h h br :=
  ⟨rfl, fun _ _ _ _ _ => rfl⟩

/-- Helper: `framePreserves` composes. -/
theorem framePreserves_trans {hA hB hC : Heap} {br : BoardRef}
    (h1 : framePreserves hA hB br) (h2 : framePreserves hB hC br) :
    framePreserves hA hC br := by
  refine ⟨by rw [h2.1, h1.1], ?_⟩
  intro r hr1 hr2 hr3 hr4
  rw [h2.2 r hr1 hr2 hr3 hr4, h1.2 r hr1 hr2 hr3 hr4]

/-- Helper: heap-level removal mutates only the given board's cells. -/
theorem removeH_frame {h : Heap} {br : BoardRef} {p : Piece} {h2 : Heap}
    (hrun : removeH h br p = Except.ok h2) : framePreserves h h2 br := by
  unfold removeH at hrun
  dsimp only at hrun
  split_ifs at hrun
  injection hrun with he
  rw [← he]
  refine ⟨by rw [write_len, write_len], ?_⟩
  intro r hr1 hr2 _ _
  rw [write_frame _ _ _ _ hr1, write_frame _ _ _ _ hr2]

/-- Helper: heap-level capture mutates only the given board's cells. -/
theorem captureH_frame {h : Heap} {br : BoardRef} {p : Piece} {h2 : Heap}
    (hrun : captureH h br p = Except.ok h2) : framePreserves h h2 br := by
  unfold captureH at hrun
  split at hrun
  · exact absurd hrun (by simp)
  · rename_i h3 hrem
    have hf := removeH_frame hrem
    injection hrun with he
    rw [← he]
    refine framePreserves_trans hf ⟨by rw [write_len], ?_⟩
    intro r hr1 hr2 hr3 hr4
    cases p.color with
    | White => exact write_frame _ _ _ _ hr3
    | Black => exact write_frame _ _ _ _ hr4

/-- Helper: heap-level insertion mutates only the given board's cells. -/
theorem addH_frame {h : Heap} {br : BoardRef} {p : Piece} {h2 : Heap}
    (hrun : addH h br p = Except.ok h2) : framePreserves h h2 br := by
  unfold addH at hrun
  dsimp only at hrun
  split_ifs at hrun
  injection hrun with he
  rw [← he]
  refine ⟨by rw [write_len, write_len], ?_⟩
  intro r hr1 hr2 _ _
  rw [write_frame _ _ _ _ hr2, write_frame _ _ _ _ hr1]

/-- Helper: the heap-level board constructor allocates exactly the four
fresh cells after the old heap and leaves existing cells readable
unchanged. -/
theorem initH_spec (h : Heap) (ps : List Piece) (cap : Option (List Piece × List Piece)) :
    (initH h ps cap).1.cells.length = h.cells.length + 4
    ∧ (initH h ps cap).2.piecesRef = h.cells.length
    ∧ (initH h ps cap).2.indexRef = h.cells.length + 1
    ∧ (initH h ps cap).2.capWRef = h.cells.length + 2
    ∧ (initH h ps cap).2.capBRef = h.cells.length + 3
    ∧ ∀ r : Nat, r < h.cells.length → (initH h ps cap).1.read r = h.read r := by
  unfold initH Heap.alloc
  refine ⟨by simp, by simp, by simp, by simp, by simp, ?_⟩
  intro r hr
  unfold Heap.read
  dsimp only
  rw [List.append_assoc, List.append_assoc, List.append_assoc]
  exact List.getD_append _ _ _ _ hr

/-- C6: the heap run of `make_move` returns a fresh board and leaves
every cell of the receiver board untouched: its piece set, its index and
both captured sets read back unchanged. -/
theorem make_move_does_not_mutate_receiver (h : Heap) (b : BoardRef) (p : Piece)
    (t : Square) (h2 : Heap) (nb : BoardRef)
    (hp : b.piecesRef < h.cells.length) (hix : b.indexRef < h.cells.length)
    (hw : b.capWRef < h.cells.length) (hb2 : b.capBRef < h.cells.length)
    (hrun : makeMoveH h b p t = Except.ok (h2, nb)) :
    h2.read b.piecesRef = h.read b.piecesRef
    ∧ h2.read b.indexRef = h.read b.indexRef
    ∧ h2.read b.capWRef = h.read b.capWRef
    ∧ h2.read b.capBRef = h.read b.capBRef
    ∧ nb.piecesRef ≠ b.piecesRef := by
  simp only [makeMoveH] at hrun
  have hspec := initH_spec h (h.getPs b.piecesRef) (some (h.getPs b.capWRef, h.getPs b.capBRef))
  obtain ⟨hlen4, hr1, hr2, hr3, hr4, hreads⟩ := hspec
  generalize hGen : initH h (h.getPs b.piecesRef) (some (h.getPs b.capWRef, h.getPs b.capBRef)) = st at hrun hlen4 hr1 hr2 hr3 hr4 hreads
  have hframe : framePreserves st.1 h2 st.2 ∧ nb = st.2 := by
    split at hrun
    · exact absurd hrun (by simp)
    · rename_i h1 heq1
      have hf1 : framePreserves st.1 h1 st.2 := by
        split at heq1
        · split_ifs at heq1
          exact captureH_frame heq1
        · injection heq1 with he
          rw [← he]
          exact framePreserves_refl _ _
      split at hrun
      · exact absurd hrun (by simp)
      · rename_i h3 heq2
        have hf3 : framePreserves h1 h3 st.2 := by
          split_ifs at heq2 with hcast hdir
          · split at heq2
            · exact absurd heq2 (by simp)
            · rename_i rook hrook
              split at heq2
              · exact absurd heq2 (by simp)
              · rename_i hB hrem
                split at heq2
                · exact absurd heq2 (by simp)
                · exact framePreserves_trans (removeH_frame hrem) (addH_frame heq2)
          · split at heq2
            · exact absurd heq2 (by simp)
            · rename_i rook hrook
              split at heq2
              · exact absurd heq2 (by simp)
              · rename_i hB hrem
                split at heq2
                · exact absurd heq2 (by simp)
                · exact framePreserves_trans (removeH_frame hrem) (addH_frame heq2)
          · injection heq2 with he
            rw [← he]
            exact framePreserves_refl _ _
        split at hrun
        · exact absurd hrun (by simp)
        · rename_i h4 hrem4
          have hf4 := removeH_frame hrem4
          split at hrun
          · exact absurd hrun (by simp)
          · rename_i piece2 hmt
            split at hrun
            · exact absurd hrun (by simp)
            · rename_i h5 hadd
              have hf5 := addH_frame hadd
              injection hrun with hpair
              have hh2 : h5 = h2 := congrArg Prod.fst hpair
              have hnb : nb = st.2 := (congrArg Prod.snd hpair).symm
              rw [← hh2]
              exact ⟨framePreserves_trans hf1
                (framePreserves_trans hf3 (framePreserves_trans hf4 hf5)), hnb⟩
  obtain ⟨hfp, hnb⟩ := hframe
  have hread : ∀ r : Nat, r < h.cells.length → h2.read r = h.read r := by
    intro r hr
    rw [hfp.2 r (by omega) (by omega) (by omega) (by omega), hreads r hr]
  refine ⟨hread _ hp, hread _ hix, hread _ hw, hread _ hb2, ?_⟩
  rw [hnb]
  omega

/-- Witness for C6: running the Rook move a1-a5 on the heap-allocated
two-piece fixture leaves all four cells of the original board unchanged
and returns a board with a fresh piece-set cell. -/
theorem make_move_does_not_mutate_receiver_witness :
    sampleHeap2.read sampleBr.piecesRef = sampleHeap.read sampleBr.piecesRef
    ∧ sampleHeap2.read sampleBr.indexRef = sampleHeap.read sampleBr.indexRef
    ∧ sampleHeap2.read sampleBr.capWRef = sampleHeap.read sampleBr.capWRef
    ∧ sampleHeap2.read sampleBr.capBRef = sampleHeap.read sampleBr.capBRef
    ∧ sampleBr2.piecesRef ≠ sampleBr.piecesRef :=
  make_move_does_not_mutate_receiver sampleHeap sampleBr sampleRook (Square.mk 0 4)
    sampleHeap2 sampleBr2 (by decide) (by decide) (by decide) (by decide) (by decide)

/-- Witness for C3: a2, b2, c2 are on board and blocking b2 sits strictly
between mover a2 and target c2 on their shared rank. -/
theorem blockedBy_iff_spec_witness :
    (Square.mk 2 1).withinBoard = true ∧ (Square.mk 0 1).withinBoard = true
    ∧ (Square.mk 1 1).withinBoard = true
    ∧ (Square.blockedBy (Square.mk 2 1) (Square.mk 0 1) (Square.mk 1 1) = true
        ↔ blockedBySpec (Square.mk 2 1) (Square.mk 0 1) (Square.mk 1 1)) :=
  ⟨by decide, by decide, by decide,
    blockedBy_iff_spec (Square.mk 2 1) (Square.mk 0 1) (Square.mk 1 1)
      (by decide) (by decide) (by decide)⟩

end Wuki
